import Mathlib

/-
Verification of the inner-curvature extraction pipeline
(backend/extractors/inner_curvature.py and its callers).

The Python code is shallowly embedded below.  Strings are embedded as
Lean `String`/`List Char`; grayscale images as lists of pixel rows
(`GrayImg`); the external OCR engine as a function parameter; the job
directory as a list of named entries.  Python float expressions such as
`int(0.20 * w)` are modelled by the exact integer value they compute for
the argument ranges that occur (Nat/Int/Rat arithmetic with explicit
floor/truncation), and PIL image operations (autocontrast, invert,
point, crop, getbbox, nearest-neighbour resize) are embedded exactly on
the rectangular pixel grids the code feeds them.
-/

/-- Python `str.strip()` on a list of characters: drop whitespace from
both ends. -/
def trimChars (l : List Char) : List Char :=
  ((l.dropWhile Char.isWhitespace).reverse.dropWhile Char.isWhitespace).reverse

/-- Python `str.strip()` as a `String` operation. -/
def pyStrip (s : String) : String := String.mk (trimChars s.data)

/-- Python `str.startswith`. -/
def pyStartsWith (s pre : String) : Bool := pre.data.isPrefixOf s.data

/-- One fuelled step list for Python `str.replace`: scan left to right,
replacing non-overlapping occurrences of `pat` (nonempty at every call
site) by `rep`. -/
def replaceFrom (pat rep : List Char) : Nat → List Char → List Char
  | _, [] => []
  | 0, l => l
  | Nat.succ n, c :: cs =>
    if pat.isPrefixOf (c :: cs) then rep ++ replaceFrom pat rep n ((c :: cs).drop pat.length)
    else c :: replaceFrom pat rep n cs

/-- Python `str.replace` (all occurrences, left to right). -/
def pyReplace (s pat rep : String) : String :=
  String.mk (replaceFrom pat.data rep.data s.data.length s.data)

/-- The single-character replacements of `parse_numeric_cell`
(lines 211-215): full-width sign to ASCII, `O`/`o` to `0`,
`I`/`l`/`|` to `1`. -/
def numNormChar (c : Char) : Char :=
  if c = '＋' then '+'
  else if c = '－' then '-'
  else if c = 'O' then '0'
  else if c = 'o' then '0'
  else if c = 'I' then '1'
  else if c = 'l' then '1'
  else if c = '|' then '1'
  else c

/-- Lines 207-215 of `parse_numeric_cell`: strip, remove every space,
then apply the single-character confusion replacements. -/
def normalize_numeric (raw : String) : List Char :=
  ((trimChars raw.data).filter (fun c => c ≠ ' ')).map numNormChar

/-- Greedy match of the unsigned part `\d+(?:\.\d+)?` of the regex at
the head of `cs` (the Python pattern at line 217): a maximal digit run,
then optionally a dot followed by a maximal nonempty digit run. -/
def numTail (cs : List Char) : Option (List Char) :=
  let d1 := cs.takeWhile Char.isDigit
  if d1.isEmpty then none
  else
    match cs.dropWhile Char.isDigit with
    | [] => some d1
    | c :: r =>
      if c = '.' then
        let d2 := r.takeWhile Char.isDigit
        if d2.isEmpty then some d1 else some (d1 ++ '.' :: d2)
      else some d1

/-- Greedy match of `[+\-]?\d+(?:\.\d+)?` starting exactly at the head
of `cs`. -/
def numMatchAt (cs : List Char) : Option (List Char) :=
  match cs with
  | [] => none
  | c :: rest => if c = '+' || c = '-' then (numTail rest).map (fun t => c :: t) else numTail cs

/-- `re.search(r"[+\-]?\d+(?:\.\d+)?", s)`: the leftmost (greedy) match,
scanning start positions left to right. -/
def firstNumMatch : List Char → Option (List Char)
  | [] => none
  | c :: cs =>
    match numMatchAt (c :: cs) with
    | some m => some m
    | none => firstNumMatch cs

/-- Lines 220-222: `num.split(".", 1)` and keeping one decimal digit,
when the matched text contains a dot. -/
def truncate1 (m : List Char) : List Char :=
  if '.' ∈ m then
    (m.takeWhile (fun c => c ≠ '.')) ++ '.' :: ((m.dropWhile (fun c => c ≠ '.')).drop 1).take 1
  else m

/-- A grayscale image: a list of pixel rows, intensities 0-255.  The
Python code works on RGB/`L` PIL images; all operations the claims
depend on act on the `L` (grayscale) plane, so `convert("L")` /
`convert("RGB")` are modelled as the identity. -/
structure GrayImg where
  data : List (List Nat)
deriving DecidableEq, Repr

/-- Image width (`img.size[0]` / `arr.shape[1]`). -/
def width (g : GrayImg) : Nat := (g.data.headD []).length

/-- Image height (`img.size[1]` / `arr.shape[0]`). -/
def height (g : GrayImg) : Nat := g.data.length

/-- Rectangularity: every pixel row has the image's width.  PIL/numpy
images are always rectangular; list-based embeddings must state it. -/
def RectImg (g : GrayImg) : Prop := ∀ r ∈ g.data, r.length = width g

instance (g : GrayImg) : Decidable (RectImg g) :=
  inferInstanceAs (Decidable (∀ r ∈ g.data, r.length = width g))

/-- Apply a per-pixel function (PIL `point` / numpy elementwise). -/
def mapPx (f : Nat → Nat) (g : GrayImg) : GrayImg := ⟨g.data.map (List.map f)⟩

/-- `ImageOps.invert` on an `L` image. -/
def invertImg (g : GrayImg) : GrayImg := mapPx (fun p => 255 - p) g

/-- `img.point(lambda p: 255 if p > thr else 0)`. -/
def pointBin (thr : Nat) (g : GrayImg) : GrayImg :=
  mapPx (fun p => if p > thr then 255 else 0) g

/-- All pixels of the image, row-major. -/
def pixels (g : GrayImg) : List Nat := g.data.foldr (fun r acc => r ++ acc) []

/-- Lowest intensity present (255 when the image is empty, as in PIL's
histogram scan). -/
def imgMin (g : GrayImg) : Nat := (pixels g).foldr min 255

/-- Highest intensity present (0 when the image is empty). -/
def imgMax (g : GrayImg) : Nat := (pixels g).foldr max 0

/-- `ImageOps.autocontrast` with the default cutoff 0: identity when the
histogram spans a single value, otherwise the linear remap
`p ↦ (p - lo) * 255 / (hi - lo)` (the float lut entry
`int(ix * scale + offset)` computes exactly this floor for pixels in
`[lo, hi]`), clamped to 255. -/
def autocontrast (g : GrayImg) : GrayImg :=
  let lo := imgMin g
  let hi := imgMax g
  if hi ≤ lo then g
  else mapPx (fun p => min 255 ((p - lo) * 255 / (hi - lo))) g

/-- `img.crop((x1, y1, x2, y2))` for an in-bounds rectangle. -/
def cropPxN (g : GrayImg) (x1 y1 x2 y2 : Nat) : GrayImg :=
  ⟨((g.data.drop y1).take (y2 - y1)).map (fun r => (r.drop x1).take (x2 - x1))⟩

/-- Does a row contain a nonzero pixel? -/
def rowHasNZ (r : List Nat) : Bool := r.any (fun p => p ≠ 0)

/-- Indices of rows containing a nonzero pixel. -/
def nzRowIdx (g : GrayImg) : List Nat :=
  (List.range (height g)).filter (fun i => rowHasNZ (g.data.getD i []))

/-- Indices of columns containing a nonzero pixel. -/
def nzColIdx (g : GrayImg) : List Nat :=
  (List.range (width g)).filter (fun c => g.data.any (fun r => r.getD c 0 ≠ 0))

/-- Minimum of a list of naturals (0 on empty; callers pass nonempty). -/
def minL (l : List Nat) : Nat :=
  match l with
  | [] => 0
  | a :: t => t.foldl min a

/-- Maximum of a list of naturals. -/
def maxL (l : List Nat) : Nat :=
  match l with
  | [] => 0
  | a :: t => t.foldl max a

/-- PIL `getbbox`: bounding box `(x1, y1, x2, y2)` (right/bottom
exclusive) of the nonzero pixels, `none` when the image is all zero. -/
def getbbox (g : GrayImg) : Option (Nat × Nat × Nat × Nat) :=
  match nzRowIdx g, nzColIdx g with
  | [], _ => none
  | _, [] => none
  | rs, cs => some (minL cs, minL rs, maxL cs + 1, maxL rs + 1)

/-- `_tighten_to_content` (lines 100-119): threshold the inverted,
autocontrasted image at 40, find the ink bounding box, expand it by 8px
clamped to the image, and crop the original; unchanged when no ink. -/
def tighten_to_content (img : GrayImg) : GrayImg :=
  let bw := pointBin 40 (autocontrast (invertImg img))
  match getbbox bw with
  | none => img
  | some (x1, y1, x2, y2) =>
    cropPxN img (x1 - 8) (y1 - 8) (min (width img) (x2 + 8)) (min (height img) (y2 + 8))

/-- Each element of the row repeated `n` times, in place. -/
def replicateEach (n : Nat) (l : List Nat) : List Nat :=
  l.foldr (fun a acc => List.replicate n a ++ acc) []

/-- `_upscale` (lines 122-126): nearest-neighbour resize to
`(w * scale, h * scale)`, a no-op when either dimension is ≤ 1. -/
def upscale (img : GrayImg) (scale : Nat) : GrayImg :=
  if width img ≤ 1 || height img ≤ 1 then img
  else ⟨img.data.foldr (fun r acc => List.replicate scale (replicateEach scale r) ++ acc) []⟩

/-- Ink pixels (intensity < 170) in one row of the autocontrasted cell. -/
def inkRow (r : List Nat) : Nat := r.countP (fun p => decide (p < 170))

/-- `ink.sum()`: total ink pixels. -/
def inkCountImg (g : GrayImg) : Nat := (g.data.map inkRow).sum

/-- `ink.sum(axis=0)[c]`: ink pixels in column `c`. -/
def colCount (g : GrayImg) (c : Nat) : Nat :=
  g.data.countP (fun r => decide (r.getD c 255 < 170))

/-- `col.max()`: the peak column ink count. -/
def peakCol (g : GrayImg) : Nat :=
  ((List.range (width g)).map (colCount g)).foldr max 0

/-- `(col > 0.20 * peak).sum()`: columns whose ink count exceeds 20% of
the peak (`5 * col > peak` is what the float comparison computes). -/
def activeColsCount (g : GrayImg) : Nat :=
  ((List.range (width g)).filter (fun c => decide (5 * colCount g c > peakCol g))).length

/-- `(row > 0).sum()`: rows containing any ink. -/
def activeRowsCount (g : GrayImg) : Nat :=
  g.data.countP (fun r => r.any (fun p => decide (p < 170)))

/-- `_looks_like_straight_one` (lines 155-196).  `int(0.20 * w)`,
`int(0.30 * w)` and `int(0.50 * h)` compute `w / 5`, `3 * w / 10` and
`h / 2` (floor) for every machine-int width/height. -/
def looks_like_straight_one (cell_img : GrayImg) : Bool :=
  let g := autocontrast cell_img
  let h := height g
  let w := width g
  if h < 10 || w < 10 then false
  else if inkCountImg g < 18 then false
  else if peakCol g = 0 then false
  else
    let active_cols := activeColsCount g
    let thin : Bool := decide (active_cols ≤ max 2 (w / 5))
    let tall : Bool := decide (h / 2 ≤ activeRowsCount g)
    let not_blob : Bool := decide (active_cols ≤ 3 * w / 10)
    thin && tall && not_blob

/-- `parse_numeric_cell` (lines 199-232): regex branch with one-decimal
truncation, else the straight-stroke fallback on the tightened,
7x-upscaled cell image, else the empty string. -/
def parse_numeric_cell (raw : String) (cell_img : Option GrayImg) : String :=
  match firstNumMatch (normalize_numeric raw) with
  | some m => String.mk (truncate1 m)
  | none =>
    match cell_img with
    | some img =>
      if looks_like_straight_one (upscale (tighten_to_content img) 7) then "+1" else ""
    | none => ""

/-- Spec-side reading of the straight-stroke heuristic's conditions on
the autocontrasted image (spec 4.6 / claim C2), as one conjunction. -/
def straightStrokeOn (g : GrayImg) : Prop :=
  10 ≤ height g ∧ 10 ≤ width g ∧ 18 ≤ inkCountImg g ∧
  activeColsCount g ≤ max 2 (width g / 5) ∧
  activeColsCount g ≤ 3 * width g / 10 ∧
  height g / 2 ≤ activeRowsCount g

/-- Spec-side straight-stroke predicate on a cell image: the C2
conditions after autocontrast, to be compared with
`looks_like_straight_one`. -/
def straightStrokeSpec (cell_img : GrayImg) : Prop :=
  straightStrokeOn (autocontrast cell_img)

/-- The single-character replacements at lines 247-248:
`I`/`l` to `1`, backslash/pipe to `/`. -/
def dateNormChar (c : Char) : Char :=
  if c = 'I' then '1'
  else if c = 'l' then '1'
  else if c = '\\' then '/'
  else if c = '|' then '/'
  else c

/-- `\D+(\d{1,2})` at the head of `cs`: a nonempty maximal non-digit
run, then the day digits (greedily two, else one).  Returns the day
digits. -/
def sepThenDay (cs : List Char) : Option (List Char) :=
  if (cs.takeWhile (fun c => ¬ c.isDigit)).isEmpty then none
  else
    match cs.dropWhile (fun c => ¬ c.isDigit) with
    | [] => none
    | c1 :: r =>
      match r with
      | c2 :: _ => if c2.isDigit then some [c1, c2] else some [c1]
      | [] => some [c1]

/-- A match of `(\d{1,2})\D+(\d{1,2})` starting exactly at the head of
`cs`, with the regex's greedy/backtracking choice of group widths.
Returns (month digits, day digits). -/
def dateMatchAt (cs : List Char) : Option (List Char × List Char) :=
  match cs with
  | [] => none
  | c1 :: rest =>
    if ¬ c1.isDigit then none
    else
      match rest with
      | [] => none
      | c2 :: r2 =>
        if c2.isDigit then (sepThenDay r2).map (fun dd => ([c1, c2], dd))
        else (sepThenDay rest).map (fun dd => ([c1], dd))

/-- `re.search(r"(\d{1,2})\D+(\d{1,2})", cand)`: leftmost match. -/
def firstDateMatch : List Char → Option (List Char × List Char)
  | [] => none
  | c :: cs =>
    match dateMatchAt (c :: cs) with
    | some md => some md
    | none => firstDateMatch cs

/-- Python `int()` of a nonempty decimal-digit string. -/
def digitsVal (l : List Char) : Nat :=
  l.foldl (fun n c => n * 10 + (c.toNat - '0'.toNat)) 0

/-- `re.split(r"\s+", cand)` restricted to nonempty tokens. -/
def splitWS (l : List Char) : List (List Char) :=
  (l.foldr
    (fun c acc =>
      if c.isWhitespace then [] :: acc
      else
        match acc with
        | [] => [[c]]
        | t :: ts => (c :: t) :: ts)
    []).filter (fun t => ¬ t.isEmpty)

/-- `_parse_month_day_from_any_separators` (lines 242-268): strip;
normalize; regex strategy, then whitespace-split numeric tokens, then
the 2-4 stripped-digit form; returns the normalized text and the
(month, day) candidate if any. -/
def parse_month_day_from_any_separators (text : String) : String × Option (Nat × Nat) :=
  let cand := trimChars text.data
  if cand.isEmpty then ("", none)
  else
    let cand := cand.map dateNormChar
    match firstDateMatch cand with
    | some (mm, dd) => (String.mk cand, some (digitsVal mm, digitsVal dd))
    | none =>
      match (splitWS cand).filter (fun t => t.all Char.isDigit) with
      | p1 :: p2 :: _ => (String.mk cand, some (digitsVal p1, digitsVal p2))
      | _ =>
        let digits := cand.filter Char.isDigit
        if digits.length = 2 ∨ digits.length = 3 ∨ digits.length = 4 then
          (String.mk cand, some (digitsVal (digits.take 1), digitsVal (digits.drop 1)))
        else (String.mk cand, none)

/-- `MONTH_NAMES` (lines 235-239) as a lookup function. -/
def MONTH_NAMES (m : Nat) : String :=
  match m with
  | 1 => "January" | 2 => "February" | 3 => "March" | 4 => "April"
  | 5 => "May" | 6 => "June" | 7 => "July" | 8 => "August"
  | 9 => "September" | 10 => "October" | 11 => "November" | 12 => "December"
  | _ => ""

/-- The post-OCR part of `ocr_date_cell` (lines 281-289): parse the raw
text, validate month/day ranges, format `"<MonthName> <day>"`, always
returning the raw text as the second component. -/
def date_from_raw (raw : String) : String × String :=
  match (parse_month_day_from_any_separators raw).2 with
  | none => ("", raw)
  | some (month, day) =>
    if 1 ≤ month ∧ month ≤ 12 ∧ 1 ≤ day ∧ day ≤ 31 then
      (MONTH_NAMES month ++ " " ++ toString day, raw)
    else ("", raw)

/-- Spec-side strategy (a) of the date cascade (claim C4): the regex
month/day pair. -/
def dateStratA (cand : List Char) : Option (Nat × Nat) :=
  (firstDateMatch cand).map (fun md => (digitsVal md.1, digitsVal md.2))

/-- Spec-side strategy (b): first two purely-numeric whitespace-split
tokens. -/
def dateStratB (cand : List Char) : Option (Nat × Nat) :=
  match (splitWS cand).filter (fun t => t.all Char.isDigit) with
  | p1 :: p2 :: _ => some (digitsVal p1, digitsVal p2)
  | _ => none

/-- Spec-side strategy (c): strip non-digits; 2-4 digits left means
first digit month, rest day. -/
def dateStratC (cand : List Char) : Option (Nat × Nat) :=
  let digits := cand.filter Char.isDigit
  if digits.length = 2 ∨ digits.length = 3 ∨ digits.length = 4 then
    some (digitsVal (digits.take 1), digitsVal (digits.drop 1))
  else none

/-- An exact fraction `num / den` (`den` positive by convention),
embedding the Python float box coordinates, whose decimal literals are
all exactly representable this way.  Plain `ℚ` is avoided only because
its normalized arithmetic does not reduce inside the kernel. -/
structure Frac where
  num : ℤ
  den : ℤ
deriving DecidableEq, Repr

/-- `0 ≤ f` for a positive-denominator fraction. -/
def Frac.nonneg (f : Frac) : Prop := 0 ≤ f.num

/-- `f ≤ 1` for a positive-denominator fraction. -/
def Frac.le_one (f : Frac) : Prop := f.num ≤ f.den

/-- `f < g` for positive-denominator fractions (cross-multiplied). -/
def Frac.lt (f g : Frac) : Prop := f.num * g.den < g.num * f.den

instance (f : Frac) : Decidable f.nonneg := inferInstanceAs (Decidable (0 ≤ f.num))

instance (f : Frac) : Decidable f.le_one := inferInstanceAs (Decidable (f.num ≤ f.den))

instance (f g : Frac) : Decidable (f.lt g) :=
  inferInstanceAs (Decidable (f.num * g.den < g.num * f.den))

/-- A normalized box `(left, top, right, bottom)`, fractions of the
reference image (the Python 4-tuples of floats, embedded exactly). -/
structure QBox where
  l : Frac
  t : Frac
  r : Frac
  b : Frac
deriving DecidableEq

/-- A pixel rectangle `(x1, y1, x2, y2)` as returned by `crop_norm`.
Python ints are unbounded, hence `ℤ`. -/
structure PixelRect where
  x1 : ℤ
  y1 : ℤ
  x2 : ℤ
  y2 : ℤ
deriving DecidableEq, Repr

/-- Python `int(f * n)` for a box coordinate `f` and a pixel size `n`:
exact truncation toward zero of `f.num * n / f.den`, which is what the
float expression computes for these operand ranges. -/
def pyIntMul (f : Frac) (n : Nat) : ℤ := Int.tdiv (f.num * n) f.den

/-- The pixel rectangle computed by `crop_norm` (lines 67-71). -/
def crop_norm_rect (W H : Nat) (box : QBox) (pad_px : ℤ) : PixelRect :=
  { x1 := max 0 (pyIntMul box.l W - pad_px)
    y1 := max 0 (pyIntMul box.t H - pad_px)
    x2 := min W (pyIntMul box.r W + pad_px)
    y2 := min H (pyIntMul box.b H + pad_px) }

/-- The pixel rectangle computed by `crop_from_image_norm`
(lines 79-83), embedded separately from `crop_norm_rect` because the
two source functions each contain their own copy of the computation. -/
def crop_from_image_norm_rect (W H : Nat) (box : QBox) (pad_px : ℤ) : PixelRect :=
  { x1 := max 0 (pyIntMul box.l W - pad_px)
    y1 := max 0 (pyIntMul box.t H - pad_px)
    x2 := min W (pyIntMul box.r W + pad_px)
    y2 := min H (pyIntMul box.b H + pad_px) }

/-- `img.crop` at a `PixelRect` (coordinates clamped to `ℕ`; the
orchestrator only passes in-bounds rectangles). -/
def cropPxZ (g : GrayImg) (rect : PixelRect) : GrayImg :=
  cropPxN g rect.x1.toNat rect.y1.toNat rect.x2.toNat rect.y2.toNat

/-- `crop_norm` (lines 64-73): load the image (modelled as already in
memory), compute the padded clamped rectangle, crop, save (the saved
image is the second component), and return the rectangle. -/
def crop_norm (img : GrayImg) (box : QBox) (pad_px : ℤ) : PixelRect × GrayImg :=
  let rect := crop_norm_rect (width img) (height img) box pad_px
  (rect, cropPxZ img rect)

/-- `crop_from_image_norm` (lines 76-84): the in-memory crop. -/
def crop_from_image_norm (img : GrayImg) (box : QBox) (pad_px : ℤ) : GrayImg :=
  cropPxZ img (crop_from_image_norm_rect (width img) (height img) box pad_px)

/-- Shorthand for a fraction with denominator 1000. -/
def pm (n : ℤ) : Frac := ⟨n, 1000⟩

/-- `HEADER_BOXES` (lines 17-22), in declaration order. -/
def HEADER_BOXES : List (String × QBox) :=
  [("construction_number", ⟨pm 135, pm 112, pm 395, pm 145⟩),
   ("orderer",             ⟨pm 135, pm 158, pm 395, pm 185⟩),
   ("construction_name",   ⟨pm 135, pm 200, pm 395, pm 230⟩),
   ("project_title",       ⟨pm 405, pm 180, pm 790, pm 230⟩)]

/-- `DIAGRAM_BOX` (line 24). -/
def DIAGRAM_BOX : QBox := ⟨pm 60, pm 260, pm 940, pm 620⟩

/-- `TABLE_BOX` (line 25). -/
def TABLE_BOX : QBox := ⟨pm 60, pm 670, pm 940, pm 950⟩

/-- `TABLE_TITLE_BOX` (line 31). -/
def TABLE_TITLE_BOX : QBox := ⟨pm 85, pm 120, pm 810, pm 200⟩

/-- `PART_X` (line 33). -/
def PART_X : Frac × Frac := (pm 0, pm 86)

/-- `GRID_X` (line 34). -/
def GRID_X : Frac × Frac := (pm 86, pm 810)

/-- `DATE_X` (line 35). -/
def DATE_X : Frac × Frac := (pm 810, pm 910)

/-- `CONFIRM_X` (line 36). -/
def CONFIRM_X : Frac × Frac := (pm 910, pm 1000)

/-- `ROW_BOXES` (lines 39-43), in declaration order (top to bottom). -/
def ROW_BOXES : List QBox :=
  [⟨pm 0, pm 440, pm 1000, pm 590⟩,
   ⟨pm 0, pm 590, pm 1000, pm 750⟩,
   ⟨pm 0, pm 750, pm 1000, pm 900⟩]

/-- The external OCR engine (easyocr `reader.readtext(arr, detail=0,
allowlist=...)`): preprocessed image and optional allowlist in, list of
recognized text fragments out.  Claims quantify over all engines. -/
def OcrEngine : Type := GrayImg → Option String → List String

/-- `preprocess_printed` (lines 87-91): grayscale, autocontrast, hard
threshold at 175. -/
def preprocess_printed (img : GrayImg) : GrayImg := pointBin 175 (autocontrast img)

/-- `preprocess_handwriting_soft` (lines 94-97): grayscale,
autocontrast only. -/
def preprocess_handwriting_soft (img : GrayImg) : GrayImg := autocontrast img

/-- `ocr_easy` (lines 129-141): preprocess per mode, run the engine,
join the stripped nonempty fragments with single spaces, strip. -/
def ocr_easy (engine : OcrEngine) (img : GrayImg) (handwriting : Bool)
    (allowlist : Option String) : String :=
  let pre := if handwriting then preprocess_handwriting_soft img else preprocess_printed img
  pyStrip (String.intercalate " " (((engine pre allowlist).map pyStrip).filter (fun t => t ≠ "")))

/-- `clean_part_number` (lines 144-148): remove spaces, strip, fix
`DB1l`/`DBll`, normalize em/en dashes. -/
def clean_part_number (s : String) : String :=
  let s := pyStrip (String.mk (s.data.filter (fun c => c ≠ ' ')))
  let s := pyReplace (pyReplace s "DB1l" "DB11") "DBll" "DB11"
  pyReplace (pyReplace s "—" "-") "–" "-"

/-- `ocr_date_cell` (lines 271-289): tighten, upscale 7x, OCR with the
digits-and-slash allowlist, then parse and validate. -/
def ocr_date_cell (engine : OcrEngine) (date_img : GrayImg) : String × String :=
  date_from_raw (ocr_easy engine (upscale (tighten_to_content date_img) 7) true (some "0123456789/"))

/-- One entry of the job directory: file name, regular-file flag, and
the page-0 raster of its content (PDF rendering / image decoding are
external capabilities, modelled as identity on the stored raster). -/
structure DirEntry where
  name : String
  isFile : Bool
  content : GrayImg
deriving DecidableEq

/-- `_find_input_file` (lines 49-53): the first directory entry (in
iteration order) that is a regular file whose name starts with
"input"; the caller raises when there is none. -/
def find_input_file (job_dir : List DirEntry) : Option DirEntry :=
  job_dir.find? (fun p => pyStartsWith p.name "input" && p.isFile)

/-- One row of the extraction result (spec RowRecord; the dict built at
lines 414-424; `date_raw` is the `_date_raw` diagnostic field). -/
structure RowRecord where
  part_number : String
  lu : List String
  lc : List String
  lb : List String
  inspection_date : String
  date_raw : String
  confirmer : String
deriving DecidableEq

/-- The extraction result (lines 436-450; the asset-path bookkeeping,
which only records URI strings, is omitted). -/
structure ExtractResult where
  template : String
  header : List (String × String)
  title_raw : String
  rows : List RowRecord
deriving DecidableEq

/-- The table image: `crop_norm(page0, table.png, TABLE_BOX, pad 10)`
then reopened from disk (line 344 and 357). -/
def table_of (page0 : GrayImg) : GrayImg := (crop_norm page0 TABLE_BOX 10).2

/-- `crop_from_image_norm(table_img, rb, pad_px=0)` (line 371). -/
def row_img_of (table_img : GrayImg) (rb : QBox) : GrayImg :=
  crop_from_image_norm table_img rb 0

/-- A horizontal band of a row image with 2px padding (lines 373-376). -/
def band_of (row_img : GrayImg) (xr : Frac × Frac) : GrayImg :=
  crop_from_image_norm row_img ⟨xr.1, ⟨0, 1⟩, xr.2, ⟨1, 1⟩⟩ 2

/-- The grid band of a row of the table. -/
def grid_of (table_img : GrayImg) (rb : QBox) : GrayImg :=
  band_of (row_img_of table_img rb) GRID_X

/-- `grid_img.crop((int((c/12)*gw), 0, int(((c+1)/12)*gw), gh))`
(lines 400-402): the `c`-th of 12 equal-width slices, left to right. -/
def gridCell (grid_img : GrayImg) (c : Nat) : GrayImg :=
  cropPxN grid_img (c * width grid_img / 12) 0 ((c + 1) * width grid_img / 12)
    (height grid_img)

/-- The numeric-cell OCR allowlist (line 404). -/
def cellAllow : String := "+-0123456789.Iil|"

/-- The 12 grid-cell values of one row (the loop at lines 398-405), in
left-to-right order; each is `parse_numeric_cell` of the cell's OCR
text with the cell image for the fallback. -/
def rowCells (engine : OcrEngine) (grid_img : GrayImg) : List String :=
  (List.range 12).map (fun c =>
    parse_numeric_cell (ocr_easy engine (gridCell grid_img c) true (some cellAllow))
      (some (gridCell grid_img c)))

/-- The per-row body of the orchestrator loop (lines 370-424). -/
def extractRow (engine : OcrEngine) (table_img : GrayImg) (rb : QBox) : RowRecord :=
  let row_img := row_img_of table_img rb
  let cells := rowCells engine (band_of row_img GRID_X)
  let dateRes := ocr_date_cell engine (band_of row_img DATE_X)
  { part_number := clean_part_number
      (ocr_easy engine (band_of row_img PART_X) false (some "DB0123456789-"))
    lu := cells.take 4
    lc := (cells.drop 4).take 4
    lb := (cells.drop 8).take 4
    inspection_date := dateRes.1
    date_raw := dateRes.2
    confirmer := pyStrip (String.mk
      ((ocr_easy engine (band_of row_img CONFIRM_X) true none).data.filter (fun c => c ≠ ' '))) }

/-- The table-title OCR allowlist (line 364). -/
def titleAllow : String :=
  "ABCDEFGHIJKLMNOPQRSTUVWXYZabcdefghijklmnopqrstuvwxyz0123456789+-/()._ 曲率R"

/-- `extract_inner_curvature` (lines 329-450): locate the input file
(fatal `FileNotFoundError` when absent, modelled as `Except.error`),
rasterize page 0, crop the table, OCR headers and title, extract the
three rows in `ROW_BOXES` order, and assemble the result.  Debug
renders and asset files are side effects with no result fields beyond
path strings and are omitted. -/
def extract_inner_curvature (job_dir : List DirEntry) (engine : OcrEngine) :
    Except String ExtractResult :=
  match find_input_file job_dir with
  | none => Except.error "No input file found"
  | some inp =>
    let page0 := inp.content
    let table_img := table_of page0
    Except.ok
      { template := "inner_curvature_v1"
        header := HEADER_BOXES.map
          (fun kb => (kb.1, ocr_easy engine (crop_norm page0 kb.2 10).2 false none))
        title_raw := ocr_easy engine (crop_from_image_norm table_img TABLE_TITLE_BOX 4) false
          (some titleAllow)
        rows := ROW_BOXES.map (fun rb => extractRow engine table_img rb) }

/-- An all-background (255) image of the given size. -/
def blankImg (w h : Nat) : GrayImg := ⟨List.replicate h (List.replicate w 255)⟩

/-- A small blank page used as concrete input in witnesses. -/
def samplePage : GrayImg := blankImg 12 12

/-- A job directory holding one input file. -/
def sampleDir : List DirEntry := [⟨"input.png", true, samplePage⟩]

/-- An OCR engine that recognizes nothing (every call degrades). -/
def nullEngine : OcrEngine := fun _ _ => []

/-- The row record `extract_inner_curvature` produces for every row of
`samplePage` under `nullEngine`: all fields degraded to `""`. -/
def sampleRow : RowRecord :=
  { part_number := "", lu := ["", "", "", ""], lc := ["", "", "", ""],
    lb := ["", "", "", ""], inspection_date := "", date_raw := "", confirmer := "" }

/-- The full result for `sampleDir` under `nullEngine`. -/
def sampleResult : ExtractResult :=
  { template := "inner_curvature_v1"
    header := [("construction_number", ""), ("orderer", ""),
               ("construction_name", ""), ("project_title", "")]
    title_raw := ""
    rows := [sampleRow, sampleRow, sampleRow] }

/-- A 20x12 cell image holding a 2px-wide full-height dark vertical
stroke, used as a concrete straight-stroke positive in witnesses. -/
def strokeCell : GrayImg :=
  ⟨List.replicate 12 (List.replicate 9 255 ++ [0, 0] ++ List.replicate 9 255)⟩

/-- A qualifying input file, used to exhibit iteration-order dependence. -/
def entryA : DirEntry := ⟨"input_a.png", true, samplePage⟩

/-- A second qualifying input file. -/
def entryB : DirEntry := ⟨"input_b.png", true, samplePage⟩

/-- A valid normalized box (components in [0,1], left<right, top<bottom)
on which a negative padding breaks the claimed clamping guarantee. -/
def cexBox : QBox := ⟨⟨1, 2⟩, ⟨1, 2⟩, ⟨3, 5⟩, ⟨3, 5⟩⟩

/-- A valid normalized box used as concrete witness input. -/
def witBox : QBox := ⟨⟨1, 4⟩, ⟨1, 10⟩, ⟨3, 4⟩, ⟨9, 10⟩⟩

/-- Spec-side (claim C3): an unsigned token of the numeric pattern —
one or more digits, optionally a dot followed by one or more digits. -/
def UNumToken (m : List Char) : Prop :=
  ∃ d1 t, m = d1 ++ t ∧ d1 ≠ [] ∧ (∀ c ∈ d1, c.isDigit = true) ∧
    (t = [] ∨ ∃ d2, t = '.' :: d2 ∧ d2 ≠ [] ∧ ∀ c ∈ d2, c.isDigit = true)

/-- Spec-side (claim C3): a token of the numeric pattern
`[+\-]?\d+(?:\.\d+)?` — optional sign, digits, optional dot plus
digits. -/
def NumToken (m : List Char) : Prop :=
  ∃ sgn d1 t, m = sgn ++ d1 ++ t ∧
    (sgn = [] ∨ sgn = ['+'] ∨ sgn = ['-']) ∧
    d1 ≠ [] ∧ (∀ c ∈ d1, c.isDigit = true) ∧
    (t = [] ∨ ∃ d2, t = '.' :: d2 ∧ d2 ≠ [] ∧ ∀ c ∈ d2, c.isDigit = true)

/-- Spec-side: `m` is a token of the numeric pattern occurring in `s`
at position `i`. -/
def TokenAt (s m : List Char) (i : Nat) : Prop :=
  ∃ pre post, s = pre ++ m ++ post ∧ pre.length = i ∧ NumToken m

/-- Spec-side: `m` is the first (leftmost, and longest at that
position) substring of `s` matching the numeric pattern — the
declarative reading of "the first substring matching optional sign,
one or more digits, and an optional decimal point with digits". -/
def FirstNumTokenSpec (s m : List Char) : Prop :=
  ∃ i, TokenAt s m i ∧ (∀ j m2, TokenAt s m2 j → i ≤ j) ∧
    (∀ m2, TokenAt s m2 i → m2.length ≤ m.length)

set_option maxRecDepth 8000

theorem pyIntMul_nonneg (n : Nat) (f : Frac) (hd : 0 < f.den) (h0 : 0 ≤ f.num) :
    0 ≤ pyIntMul f n :=
  Int.tdiv_nonneg (mul_nonneg h0 (Int.natCast_nonneg n)) hd.le

theorem pyIntMul_le_self (n : Nat) (f : Frac) (hd : 0 < f.den) (h0 : 0 ≤ f.num)
    (h1 : f.num ≤ f.den) : pyIntMul f n ≤ n := by
  unfold pyIntMul
  rw [Int.tdiv_eq_ediv (mul_nonneg h0 (Int.natCast_nonneg n)) hd.le]
  calc f.num * n / f.den ≤ f.den * n / f.den :=
        Int.ediv_le_ediv hd (mul_le_mul_of_nonneg_right h1 (Int.natCast_nonneg n))
    _ = n := Int.mul_ediv_cancel_left _ hd.ne'

theorem pyIntMul_mono (n : Nat) (f g : Frac) (hfd : 0 < f.den) (hgd : 0 < g.den)
    (hf0 : 0 ≤ f.num) (hg0 : 0 ≤ g.num) (hfg : f.num * g.den ≤ g.num * f.den) :
    pyIntMul f n ≤ pyIntMul g n := by
  unfold pyIntMul
  rw [Int.tdiv_eq_ediv (mul_nonneg hf0 (Int.natCast_nonneg n)) hfd.le,
    Int.tdiv_eq_ediv (mul_nonneg hg0 (Int.natCast_nonneg n)) hgd.le]
  refine (Int.le_ediv_iff_mul_le hgd).mpr ?_
  have h1 : f.num * n / f.den * f.den ≤ f.num * n := Int.ediv_mul_le _ hfd.ne'
  have h2 : f.num * n * g.den ≤ g.num * n * f.den := by
    have := mul_le_mul_of_nonneg_right hfg (Int.natCast_nonneg n)
    nlinarith
  nlinarith [mul_le_mul_of_nonneg_right h1 hgd.le,
    mul_pos hfd (show (0:ℤ) < 1 by norm_num)]

theorem axis_bounds (n : Nat) (f g : Frac) (pad : ℤ) (hfd : 0 < f.den) (hgd : 0 < g.den)
    (hf0 : 0 ≤ f.num) (hfg : f.num * g.den < g.num * f.den) (hg1 : g.num ≤ g.den)
    (hpad : 0 ≤ pad) :
    0 ≤ max 0 (pyIntMul f n - pad) ∧
    max 0 (pyIntMul f n - pad) ≤ min (n : ℤ) (pyIntMul g n + pad) ∧
    min (n : ℤ) (pyIntMul g n + pad) ≤ (n : ℤ) := by
  have hg0 : 0 ≤ g.num := by nlinarith
  have hf1 : f.num ≤ f.den := by nlinarith
  refine ⟨le_max_left 0 _, ?_, min_le_left _ _⟩
  have hfn := pyIntMul_nonneg n f hfd hf0
  have hgn := pyIntMul_nonneg n g hgd hg0
  have hfle := pyIntMul_le_self n f hfd hf0 hf1
  have hmono := pyIntMul_mono n f g hfd hgd hf0 hg0 hfg.le
  refine max_le (le_min (Int.natCast_nonneg n) (by omega)) (le_min (by omega) (by omega))

/-- C5 (amended): for every image size, every NormalizedBox with
components in [0,1] (as positive-denominator fractions), left<right,
top<bottom, and every NONNEGATIVE pixel padding, the pixel rectangles
computed by both `crop_norm` and `crop_from_image_norm` satisfy
`0 ≤ x1 ≤ x2 ≤ W` and `0 ≤ y1 ≤ y2 ≤ H`: the padded rectangle is
silently clamped to the image bounds and the crop cannot fail.  (The
unamended claim, quantifying over every integer padding, is refuted by
`c5_counterexample`.) -/
theorem c5_crop_rect_clamped (W H : Nat) (box : QBox) (pad_px : ℤ)
    (hld : 0 < box.l.den) (htd : 0 < box.t.den) (hrd : 0 < box.r.den) (hbd : 0 < box.b.den)
    (hl0 : box.l.nonneg) (ht0 : box.t.nonneg)
    (hlr : box.l.lt box.r) (htb : box.t.lt box.b)
    (hr1 : box.r.le_one) (hb1 : box.b.le_one)
    (hpad : 0 ≤ pad_px) :
    (0 ≤ (crop_norm_rect W H box pad_px).x1 ∧
     (crop_norm_rect W H box pad_px).x1 ≤ (crop_norm_rect W H box pad_px).x2 ∧
     (crop_norm_rect W H box pad_px).x2 ≤ (W : ℤ) ∧
     0 ≤ (crop_norm_rect W H box pad_px).y1 ∧
     (crop_norm_rect W H box pad_px).y1 ≤ (crop_norm_rect W H box pad_px).y2 ∧
     (crop_norm_rect W H box pad_px).y2 ≤ (H : ℤ)) ∧
    (0 ≤ (crop_from_image_norm_rect W H box pad_px).x1 ∧
     (crop_from_image_norm_rect W H box pad_px).x1 ≤ (crop_from_image_norm_rect W H box pad_px).x2 ∧
     (crop_from_image_norm_rect W H box pad_px).x2 ≤ (W : ℤ) ∧
     0 ≤ (crop_from_image_norm_rect W H box pad_px).y1 ∧
     (crop_from_image_norm_rect W H box pad_px).y1 ≤ (crop_from_image_norm_rect W H box pad_px).y2 ∧
     (crop_from_image_norm_rect W H box pad_px).y2 ≤ (H : ℤ)) := by
  have hx := axis_bounds W box.l box.r pad_px hld hrd hl0 hlr hr1 hpad
  have hy := axis_bounds H box.t box.b pad_px htd hbd ht0 htb hb1 hpad
  have hsame : crop_from_image_norm_rect W H box pad_px = crop_norm_rect W H box pad_px := rfl
  rw [hsame]
  exact ⟨⟨hx.1, hx.2.1, hx.2.2, hy.1, hy.2.1, hy.2.2⟩,
    ⟨hx.1, hx.2.1, hx.2.2, hy.1, hy.2.1, hy.2.2⟩⟩

/-- Witness for C5 at a concrete size, box and padding. -/
theorem c5_crop_rect_clamped_witness :
    (0 ≤ (crop_norm_rect 100 50 witBox 7).x1 ∧
     (crop_norm_rect 100 50 witBox 7).x1 ≤ (crop_norm_rect 100 50 witBox 7).x2 ∧
     (crop_norm_rect 100 50 witBox 7).x2 ≤ (100 : ℤ) ∧
     0 ≤ (crop_norm_rect 100 50 witBox 7).y1 ∧
     (crop_norm_rect 100 50 witBox 7).y1 ≤ (crop_norm_rect 100 50 witBox 7).y2 ∧
     (crop_norm_rect 100 50 witBox 7).y2 ≤ (50 : ℤ)) ∧
    (0 ≤ (crop_from_image_norm_rect 100 50 witBox 7).x1 ∧
     (crop_from_image_norm_rect 100 50 witBox 7).x1 ≤ (crop_from_image_norm_rect 100 50 witBox 7).x2 ∧
     (crop_from_image_norm_rect 100 50 witBox 7).x2 ≤ (100 : ℤ) ∧
     0 ≤ (crop_from_image_norm_rect 100 50 witBox 7).y1 ∧
     (crop_from_image_norm_rect 100 50 witBox 7).y1 ≤ (crop_from_image_norm_rect 100 50 witBox 7).y2 ∧
     (crop_from_image_norm_rect 100 50 witBox 7).y2 ≤ (50 : ℤ)) :=
  c5_crop_rect_clamped 100 50 witBox 7 (by decide) (by decide) (by decide) (by decide)
    (by decide) (by decide) (by decide) (by decide) (by decide) (by decide) (by decide)

/-- C5 counterexample: with the valid box `cexBox` (components in
[0,1], left<right, top<bottom) on a 100x100 image, padding `-100`
produces `x1 = 150 > x2 = -40`: the clamped-rectangle guarantee fails
for this padding (and PIL `crop` raises on such a rectangle). -/
theorem c5_counterexample :
    ¬ ((crop_norm_rect 100 100 cexBox (-100)).x1 ≤ (crop_norm_rect 100 100 cexBox (-100)).x2 ∧
       0 ≤ (crop_norm_rect 100 100 cexBox (-100)).x2) := by decide

/-- C7: on identical in-memory image content, box and padding, the
file-path crop (`crop_norm`, image loading modelled as identity on the
decoded content) and the in-memory crop (`crop_from_image_norm`)
compute the same pixel rectangle and bit-identical cropped images. -/
theorem c7_crop_paths_agree (img : GrayImg) (box : QBox) (pad_px : ℤ) :
    crop_norm img box pad_px =
      (crop_from_image_norm_rect (width img) (height img) box pad_px,
       crop_from_image_norm img box pad_px) := rfl

/-- C8 counterexample: `parse_numeric_cell` maps `"-3."` to `"-3"`,
not to the claimed `"-3."`: the regex match stops before the trailing
dot (no digit follows it), so the dot is not part of the result. -/
theorem c8_counterexample : parse_numeric_cell "-3." none ≠ "-3." := by decide

/-- C8 (amended): the numeric cell parser maps `"-3."` to `"-3"`
(for any or no cell image): with no digit after the decimal point the
regex match is just `-3`, the trailing dot is dropped, and the
decimal-truncation branch is not triggered. -/
theorem c8_amended (cell_img : Option GrayImg) : parse_numeric_cell "-3." cell_img = "-3" := rfl

theorem mem_trimChars {c : Char} {l : List Char} (h : c ∈ trimChars l) : c ∈ l := by
  unfold trimChars at h
  rw [List.mem_reverse] at h
  have h2 := (List.dropWhile_sublist Char.isWhitespace).subset h
  rw [List.mem_reverse] at h2
  exact (List.dropWhile_sublist Char.isWhitespace).subset h2

theorem no_space_filter (l : List Char) : ' ' ∉ l.filter (fun c => c ≠ ' ') := by
  intro h
  have := (List.mem_filter.mp h).2
  simp at this

theorem take_drop_concat_12 (l : List String) (h : l.length = 12) :
    l.take 4 ++ (l.drop 4).take 4 ++ (l.drop 8).take 4 = l := by
  have h8 : (l.drop 8).take 4 = l.drop 8 :=
    List.take_of_length_le (by simp [h])
  have hdd : (l.drop 4).drop 4 = l.drop 8 := by
    rw [List.drop_drop]
  rw [h8, List.append_assoc, ← hdd, List.take_append_drop, List.take_append_drop]

/-- C9: the input-file lookup accepts any regular directory entry whose
name merely starts with "input" (so "inputs.txt" and "input_copy.pdf"
qualify); `extract_inner_curvature` fails with the FileNotFoundError
message exactly when no such entry exists; and with several qualifying
entries the chosen one depends on the iteration order: the same two
entries in the two orders (a permutation of each other) select
different files. -/
theorem c9_find_input_file (d : List DirEntry) (e : OcrEngine) :
    (∀ p, find_input_file d = some p →
      pyStartsWith p.name "input" = true ∧ p.isFile = true ∧ p ∈ d) ∧
    (find_input_file d = none ↔
      ∀ p ∈ d, ¬ (pyStartsWith p.name "input" = true ∧ p.isFile = true)) ∧
    ((∃ msg, extract_inner_curvature d e = Except.error msg) ↔ find_input_file d = none) ∧
    (find_input_file [⟨"inputs.txt", true, samplePage⟩] ≠ none ∧
     find_input_file [⟨"input_copy.pdf", true, samplePage⟩] ≠ none) ∧
    (find_input_file [entryA, entryB] = some entryA ∧
     find_input_file [entryB, entryA] = some entryB ∧
     entryA ≠ entryB ∧ [entryA, entryB].Perm [entryB, entryA]) := by
  refine ⟨?_, ?_, ?_, by decide, by decide, by decide, by decide, .swap entryB entryA []⟩
  · intro p h
    have hp := List.find?_some h
    rw [Bool.and_eq_true] at hp
    exact ⟨hp.1, hp.2, List.mem_of_find?_eq_some h⟩
  · unfold find_input_file
    rw [List.find?_eq_none]
    constructor
    · intro h p hp hcond
      have := h p hp
      rw [Bool.and_eq_true] at this
      exact this ⟨hcond.1, hcond.2⟩
    · intro h p hp hcond
      rw [Bool.and_eq_true] at hcond
      exact h p hp ⟨hcond.1, hcond.2⟩
  · unfold extract_inner_curvature
    cases hf : find_input_file d with
    | none => exact ⟨fun _ => rfl, fun _ => ⟨"No input file found", rfl⟩⟩
    | some inp =>
      constructor
      · rintro ⟨msg, hmsg⟩
        exact absurd hmsg (by simp)
      · intro h
        exact absurd h (by simp)

/-- Witness for C9 at a concrete directory. -/
theorem c9_find_input_file_witness :
    pyStartsWith entryA.name "input" = true ∧ entryA.isFile = true ∧ entryA ∈ [entryA, entryB] :=
  (c9_find_input_file [entryA, entryB] nullEngine).1 entryA rfl

/-- C6: `extract_inner_curvature` fails (with the FileNotFoundError
message) exactly when no input file is found in the job directory; for
every OCR engine whatsoever the extraction otherwise succeeds with the
full 3-row, 4-header structure; and recognition failures only degrade
the affected field to `""`: an unparseable date cell yields
`("", raw)` and a numeric cell with no regex match and no stroke match
yields `""` — none of them can abort the extraction, which is total in
the engine. -/
theorem c6_fatal_vs_degraded (d : List DirEntry) (e : OcrEngine) :
    ((∃ msg, extract_inner_curvature d e = Except.error msg) ↔ find_input_file d = none) ∧
    (find_input_file d = none →
      extract_inner_curvature d e = Except.error "No input file found") ∧
    (∀ r, extract_inner_curvature d e = Except.ok r →
      r.rows.length = 3 ∧ r.header.length = 4) ∧
    (∀ raw, (parse_month_day_from_any_separators raw).2 = none →
      date_from_raw raw = ("", raw)) ∧
    (∀ raw img, firstNumMatch (normalize_numeric raw) = none →
      looks_like_straight_one (upscale (tighten_to_content img) 7) = false →
      parse_numeric_cell raw (some img) = "") := by
  refine ⟨(c9_find_input_file d e).2.2.1, ?_, ?_, ?_, ?_⟩
  · intro h
    unfold extract_inner_curvature
    rw [h]
  · intro r h
    unfold extract_inner_curvature at h
    cases hf : find_input_file d with
    | none => rw [hf] at h; exact absurd h (by simp)
    | some inp =>
      rw [hf] at h
      have hr := (Except.ok.injEq _ _).mp h
      rw [← hr]
      exact ⟨by simp [ROW_BOXES], by simp [HEADER_BOXES]⟩
  · intro raw h
    unfold date_from_raw
    rw [h]
  · intro raw img h1 h2
    unfold parse_numeric_cell
    rw [h1]
    simp [h2]

/-- Witness for C6: the empty directory has no input file and the
extraction fails with the FileNotFoundError message. -/
theorem c6_fatal_vs_degraded_witness :
    extract_inner_curvature [] nullEngine = Except.error "No input file found" :=
  (c6_fatal_vs_degraded [] nullEngine).2.1 rfl

/-- C10: every row of every extraction result has a `confirmer` value
containing no space character: the orchestrator removes all spaces
from the confirmer cell's OCR text (and strips it) before storing. -/
theorem c10_confirmer_no_space (d : List DirEntry) (e : OcrEngine) (r : ExtractResult)
    (h : extract_inner_curvature d e = Except.ok r) :
    ∀ row ∈ r.rows, ' ' ∉ row.confirmer.data := by
  intro row hrow
  unfold extract_inner_curvature at h
  cases hf : find_input_file d with
  | none => rw [hf] at h; exact absurd h (by simp)
  | some inp =>
    rw [hf] at h
    have hr := (Except.ok.injEq _ _).mp h
    rw [← hr] at hrow
    obtain ⟨rb, _, hrw⟩ := List.mem_map.mp hrow
    rw [← hrw]
    intro hsp
    exact no_space_filter _ (mem_trimChars hsp)

/-- Witness for C10 at a concrete directory, engine and result. -/
theorem c10_confirmer_no_space_witness : ' ' ∉ sampleRow.confirmer.data :=
  c10_confirmer_no_space sampleDir nullEngine sampleResult rfl sampleRow (by decide)

/-- C1: for every extraction result (over every OCR engine), `rows`
has exactly 3 records, one per `ROW_BOXES` entry in declaration
(top-to-bottom) order; and in every row, `lu`, `lc`, `lb` are lists of
exactly 4 strings whose concatenation is exactly the 12 grid-cell
parse results in left-to-right cell order — each cell being a `String`
produced by `parse_numeric_cell` (hence `""`, never absent, when
unrecognized). -/
theorem c1_rows_shape (d : List DirEntry) (e : OcrEngine) (r : ExtractResult)
    (h : extract_inner_curvature d e = Except.ok r) :
    r.rows.length = 3 ∧
    (∀ inp, find_input_file d = some inp →
      r.rows = ROW_BOXES.map (extractRow e (table_of inp.content))) ∧
    (∀ tbl rb, (extractRow e tbl rb).lu.length = 4 ∧
      (extractRow e tbl rb).lc.length = 4 ∧
      (extractRow e tbl rb).lb.length = 4 ∧
      (extractRow e tbl rb).lu ++ (extractRow e tbl rb).lc ++ (extractRow e tbl rb).lb =
        rowCells e (grid_of tbl rb)) := by
  unfold extract_inner_curvature at h
  cases hf : find_input_file d with
  | none => rw [hf] at h; exact absurd h (by simp)
  | some inp =>
    rw [hf] at h
    have hr := (Except.ok.injEq _ _).mp h
    have hrows : r.rows = ROW_BOXES.map (extractRow e (table_of inp.content)) := by
      rw [← hr]
    refine ⟨by rw [hrows]; simp [ROW_BOXES], ?_, ?_⟩
    · intro inp' hinp'
      have heq : inp = inp' := Option.some.inj hinp'
      rw [← heq]
      exact hrows
    · intro tbl rb
      have hlen : (rowCells e (grid_of tbl rb)).length = 12 := by
        simp [rowCells]
      have hlu : (extractRow e tbl rb).lu = (rowCells e (grid_of tbl rb)).take 4 := rfl
      have hlc : (extractRow e tbl rb).lc = ((rowCells e (grid_of tbl rb)).drop 4).take 4 := rfl
      have hlb : (extractRow e tbl rb).lb = ((rowCells e (grid_of tbl rb)).drop 8).take 4 := rfl
      refine ⟨?_, ?_, ?_, ?_⟩
      · rw [hlu]; simp [hlen]
      · rw [hlc]; simp [hlen]
      · rw [hlb]; simp [hlen]
      · rw [hlu, hlc, hlb]
        exact take_drop_concat_12 _ hlen

/-- Witness for C1 at a concrete directory, engine and result. -/
theorem c1_rows_shape_witness :
    sampleResult.rows.length = 3 ∧
    (extractRow nullEngine (table_of samplePage) ⟨pm 0, pm 440, pm 1000, pm 590⟩).lu.length = 4 :=
  ⟨(c1_rows_shape sampleDir nullEngine sampleResult rfl).1,
   ((c1_rows_shape sampleDir nullEngine sampleResult rfl).2.2
     (table_of samplePage) ⟨pm 0, pm 440, pm 1000, pm 590⟩).1⟩

/-- C4: the date parser always returns the raw OCR string as second
component; after strip and `I`/`l`→`1`, `\`/`|`→`/` normalization the
month/day candidate is the first success of the cascade (a) regex
`(\d{1,2})\D+(\d{1,2})`, (b) first two purely-numeric whitespace
tokens, (c) 2-4 stripped digits split as first digit / rest; a
candidate is formatted `"<MonthName> <day>"` exactly when month is in
[1,12] and day in [1,31], else `""`; and the spec's examples hold. -/
theorem c4_date_cascade :
    (∀ raw, (date_from_raw raw).2 = raw) ∧
    (∀ raw, (parse_month_day_from_any_separators raw).2 =
      (if (trimChars raw.data).isEmpty then none
       else
         ((dateStratA ((trimChars raw.data).map dateNormChar)).orElse
            (fun _ => dateStratB ((trimChars raw.data).map dateNormChar))).orElse
           (fun _ => dateStratC ((trimChars raw.data).map dateNormChar)))) ∧
    (∀ raw m dday, (parse_month_day_from_any_separators raw).2 = some (m, dday) →
      (date_from_raw raw).1 =
        if 1 ≤ m ∧ m ≤ 12 ∧ 1 ≤ dday ∧ dday ≤ 31 then
          MONTH_NAMES m ++ " " ++ toString dday
        else "") ∧
    (date_from_raw "3/14" = ("March 14", "3/14") ∧
     date_from_raw "13/40" = ("", "13/40") ∧
     date_from_raw "" = ("", "")) := by
  refine ⟨?_, ?_, ?_, by decide, by decide, by decide⟩
  · intro raw
    unfold date_from_raw
    rcases hp : (parse_month_day_from_any_separators raw).2 with _ | ⟨m, dd⟩
    · simp [hp]
    · simp only [hp]
      split <;> rfl
  · intro raw
    unfold parse_month_day_from_any_separators dateStratA dateStratB dateStratC
    by_cases hemp : (trimChars raw.data).isEmpty
    · simp [hemp]
    · simp only [hemp, Bool.false_eq_true, if_false]
      rcases hA : firstDateMatch ((trimChars raw.data).map dateNormChar) with _ | ⟨mm, dd⟩
      · rcases hB : (List.filter (fun t => t.all Char.isDigit)
            (splitWS ((trimChars raw.data).map dateNormChar))) with _ | ⟨p1, _ | ⟨p2, rest⟩⟩ <;>
          simp [hA, hB, Option.orElse] <;> try (split <;> rfl)
      · simp [hA, Option.orElse]
  · intro raw m dday h
    unfold date_from_raw
    simp only [h]
    split <;> rfl

/-- Witness for C4: the validation conjunct applied at raw "12/31". -/
theorem c4_date_cascade_witness : (date_from_raw "12/31").1 = "December 31" := by
  have h := c4_date_cascade.2.2.1 "12/31" 12 31 (by decide)
  rw [h]
  decide

theorem rect_of_uniform (g : GrayImg) (L : Nat) (h : ∀ r ∈ g.data, r.length = L) :
    RectImg g := by
  intro r hr
  unfold width
  cases hg : g.data with
  | nil => rw [hg] at hr; cases hr
  | cons a t =>
    have ha : a.length = L := h a (by rw [hg]; exact List.mem_cons_self a t)
    simp [List.headD, h r hr, ha]

theorem rect_mapPx (f : Nat → Nat) (g : GrayImg) (h : RectImg g) : RectImg (mapPx f g) := by
  apply rect_of_uniform _ (width g)
  intro r hr
  unfold mapPx at hr
  obtain ⟨r0, hr0, rfl⟩ := List.mem_map.mp hr
  simp [h r0 hr0]

theorem rect_autocontrast (g : GrayImg) (h : RectImg g) : RectImg (autocontrast g) := by
  simp only [autocontrast]
  split
  · exact h
  · exact rect_mapPx _ _ h

theorem rect_cropPxN (g : GrayImg) (x1 y1 x2 y2 : Nat) (h : RectImg g) :
    RectImg (cropPxN g x1 y1 x2 y2) := by
  apply rect_of_uniform _ (min (x2 - x1) (width g - x1))
  intro r hr
  unfold cropPxN at hr
  obtain ⟨r0, hr0, rfl⟩ := List.mem_map.mp hr
  have hmem : r0 ∈ g.data := ((List.take_sublist _ _).trans (List.drop_sublist _ _)).subset hr0
  simp [h r0 hmem]

theorem rect_tighten (img : GrayImg) (h : RectImg img) : RectImg (tighten_to_content img) := by
  simp only [tighten_to_content]
  rcases hb : getbbox (pointBin 40 (autocontrast (invertImg img))) with _ | ⟨x1, y1, x2, y2⟩
  · exact h
  · exact rect_cropPxN _ _ _ _ _ h

theorem replicateEach_length (n : Nat) (l : List Nat) :
    (replicateEach n l).length = n * l.length := by
  induction l with
  | nil => simp [replicateEach]
  | cons a t ih =>
    simp only [replicateEach] at ih ⊢
    simp [List.length_append, ih]
    ring

theorem mem_upscale_rows (scale : Nat) (l : List (List Nat)) (r : List Nat)
    (h : r ∈ l.foldr (fun row acc => List.replicate scale (replicateEach scale row) ++ acc) []) :
    ∃ r0 ∈ l, r = replicateEach scale r0 := by
  induction l with
  | nil => cases h
  | cons a t ih =>
    rcases List.mem_append.mp h with h1 | h2
    · exact ⟨a, by simp, List.eq_of_mem_replicate h1⟩
    · obtain ⟨r0, hr0, hr⟩ := ih h2
      exact ⟨r0, by simp [hr0], hr⟩

theorem rect_upscale (img : GrayImg) (scale : Nat) (h : RectImg img) :
    RectImg (upscale img scale) := by
  simp only [upscale]
  split
  · exact h
  · apply rect_of_uniform _ (scale * width img)
    intro r hr
    obtain ⟨r0, hr0, rfl⟩ := mem_upscale_rows scale img.data r hr
    rw [replicateEach_length, h r0 hr0]

theorem le_foldr_max (l : List Nat) (a : Nat) (h : a ∈ l) : a ≤ l.foldr max 0 := by
  induction l with
  | nil => cases h
  | cons b t ih =>
    rcases List.mem_cons.mp h with rfl | h'
    · exact le_max_left _ _
    · exact le_trans (ih h') (le_max_right _ _)

theorem peak_pos (g : GrayImg) (hrect : RectImg g) (hink : 1 ≤ inkCountImg g) :
    peakCol g ≠ 0 := by
  have hex : ∃ r ∈ g.data, 0 < inkRow r := by
    by_contra hno
    push_neg at hno
    have hz : inkCountImg g = 0 := by
      unfold inkCountImg
      apply List.sum_eq_zero
      intro x hx
      obtain ⟨r, hr, rfl⟩ := List.mem_map.mp hx
      exact Nat.le_zero.mp (hno r hr)
    omega
  obtain ⟨r, hr, hpos⟩ := hex
  unfold inkRow at hpos
  obtain ⟨p, hp, hpdec⟩ := List.countP_pos_iff.mp hpos
  obtain ⟨i, hi, hget⟩ := List.getElem_of_mem hp
  have hci : i < width g := by rw [← hrect r hr]; exact hi
  have hcol : 0 < colCount g i := by
    unfold colCount
    apply List.countP_pos_iff.mpr
    refine ⟨r, hr, ?_⟩
    rw [List.getD_eq_getElem r 255 hi, hget]
    exact hpdec
  have hmem : colCount g i ∈ (List.range (width g)).map (colCount g) :=
    List.mem_map.mpr ⟨i, List.mem_range.mpr hci, rfl⟩
  have hle := le_foldr_max _ _ hmem
  unfold peakCol
  omega

theorem looks_iff_spec (g : GrayImg) (hrect : RectImg g) :
    looks_like_straight_one g = true ↔ straightStrokeSpec g := by
  have harect : RectImg (autocontrast g) := rect_autocontrast g hrect
  simp only [looks_like_straight_one, straightStrokeSpec, straightStrokeOn]
  constructor
  · intro ht
    split_ifs at ht with h1 h2 h3
    · simp only [Bool.and_eq_true, decide_eq_true_eq] at ht
      simp only [Bool.or_eq_true, decide_eq_true_eq] at h1
      push_neg at h1 h2
      exact ⟨by omega, by omega, by omega, ht.1.1, ht.2, ht.1.2⟩
  · rintro ⟨s1, s2, s3, s4, s5, s6⟩
    rw [if_neg, if_neg, if_neg]
    · simp only [Bool.and_eq_true, decide_eq_true_eq]
      exact ⟨⟨s4, s6⟩, s5⟩
    · exact peak_pos (autocontrast g) harect (by omega)
    · omega
    · simp only [Bool.or_eq_true, decide_eq_true_eq]
      push_neg
      omega

/-- C2: whenever the normalized OCR text contains no match of the
numeric pattern, `parse_numeric_cell` returns `"+1"` exactly when the
cell image — after tighten-to-content and 7x nearest-neighbour
upscaling — satisfies the straight-stroke conditions (dimensions ≥ 10,
≥ 18 ink pixels below intensity 170 after autocontrast, active columns
≤ max(2, 20% of width) and ≤ 30% of width, ink rows ≥ 50% of height),
and `""` otherwise, including when no cell image is supplied. -/
theorem c2_straight_stroke_fallback (raw : String) (img : GrayImg)
    (hrect : RectImg img)
    (hnom : firstNumMatch (normalize_numeric raw) = none) :
    (parse_numeric_cell raw (some img) = "+1" ↔
      straightStrokeSpec (upscale (tighten_to_content img) 7)) ∧
    (¬ straightStrokeSpec (upscale (tighten_to_content img) 7) →
      parse_numeric_cell raw (some img) = "") ∧
    parse_numeric_cell raw none = "" := by
  have hrect2 : RectImg (upscale (tighten_to_content img) 7) :=
    rect_upscale _ 7 (rect_tighten _ hrect)
  have hiff := looks_iff_spec _ hrect2
  unfold parse_numeric_cell
  simp only [hnom]
  rcases hb : looks_like_straight_one (upscale (tighten_to_content img) 7) with _ | _
  · rw [← hiff]
    simp [hb]
  · rw [← hiff]
    simp [hb]

/-- Witness for C2 at a concrete no-match string and cell image. -/
theorem c2_straight_stroke_fallback_witness :
    (parse_numeric_cell "" (some (blankImg 2 2)) = "+1" ↔
      straightStrokeSpec (upscale (tighten_to_content (blankImg 2 2)) 7)) ∧
    (¬ straightStrokeSpec (upscale (tighten_to_content (blankImg 2 2)) 7) →
      parse_numeric_cell "" (some (blankImg 2 2)) = "") ∧
    parse_numeric_cell "" none = "" :=
  c2_straight_stroke_fallback "" (blankImg 2 2) (by decide) rfl

theorem takeWhile_pre (p : Char → Bool) (d' rest : List Char) (h : ∀ c ∈ d', p c = true) :
    (d' ++ rest).takeWhile p = d' ++ rest.takeWhile p := by
  induction d' with
  | nil => rfl
  | cons c d'' ih =>
    rw [List.cons_append, List.takeWhile_cons, h c (by simp), if_pos rfl,
      ih (fun x hx => h x (by simp [hx])), List.cons_append]

theorem dropWhile_pre (p : Char → Bool) (d' rest : List Char) (h : ∀ c ∈ d', p c = true) :
    (d' ++ rest).dropWhile p = rest.dropWhile p := by
  induction d' with
  | nil => rfl
  | cons c d'' ih =>
    rw [List.cons_append, List.dropWhile_cons, if_pos (h c (by simp))]
    exact ih (fun x hx => h x (by simp [hx]))

theorem numTail_d1 (cs t : List Char) (h : numTail cs = some t) :
    ∃ rest2, t = cs.takeWhile Char.isDigit ++ rest2 := by
  unfold numTail at h
  by_cases he : (cs.takeWhile Char.isDigit).isEmpty
  · rw [if_pos he] at h; cases h
  · rw [if_neg he] at h
    rcases hR : cs.dropWhile Char.isDigit with _ | ⟨c, r⟩ <;> simp only [hR] at h
    · exact ⟨[], by simpa using (Option.some.inj h).symm⟩
    · by_cases hc : c = '.'
      · rw [if_pos hc] at h
        by_cases hd2 : (r.takeWhile Char.isDigit).isEmpty
        · rw [if_pos hd2] at h
          exact ⟨[], by simpa using (Option.some.inj h).symm⟩
        · rw [if_neg hd2] at h
          exact ⟨'.' :: r.takeWhile Char.isDigit, (Option.some.inj h).symm⟩
      · rw [if_neg hc] at h
        exact ⟨[], by simpa using (Option.some.inj h).symm⟩

theorem numTail_eq_none (cs : List Char) (h : numTail cs = none) :
    cs.takeWhile Char.isDigit = [] := by
  by_cases he : (cs.takeWhile Char.isDigit).isEmpty
  · exact List.isEmpty_iff.mp he
  · exfalso
    unfold numTail at h
    rw [if_neg he] at h
    rcases hR : cs.dropWhile Char.isDigit with _ | ⟨c, r⟩ <;> simp only [hR] at h
    · cases h
    · by_cases hc : c = '.'
      · rw [if_pos hc] at h
        by_cases hd2 : (r.takeWhile Char.isDigit).isEmpty
        · rw [if_pos hd2] at h; cases h
        · rw [if_neg hd2] at h; cases h
      · rw [if_neg hc] at h; cases h

theorem numTail_sound (cs t : List Char) (h : numTail cs = some t) :
    (∃ r, cs = t ++ r) ∧ UNumToken t := by
  have hdig : ∀ c ∈ cs.takeWhile Char.isDigit, c.isDigit = true :=
    fun c hc => List.mem_takeWhile_imp hc
  have hsplit : cs.takeWhile Char.isDigit ++ cs.dropWhile Char.isDigit = cs :=
    List.takeWhile_append_dropWhile Char.isDigit cs
  unfold numTail at h
  by_cases he : (cs.takeWhile Char.isDigit).isEmpty
  · rw [if_pos he] at h; cases h
  · rw [if_neg he] at h
    have hne : cs.takeWhile Char.isDigit ≠ [] := fun hh => he (by simp [hh])
    rcases hR : cs.dropWhile Char.isDigit with _ | ⟨c, r⟩ <;> simp only [hR] at h
    · rw [hR, List.append_nil] at hsplit
      have ht : t = cs.takeWhile Char.isDigit := (Option.some.inj h).symm
      subst ht
      exact ⟨⟨[], by rw [List.append_nil]; exact hsplit.symm⟩,
        cs.takeWhile Char.isDigit, [], by simp, hne, hdig, Or.inl rfl⟩
    · rw [hR] at hsplit
      by_cases hc : c = '.'
      · subst hc
        rw [if_pos rfl] at h
        by_cases hd2 : (r.takeWhile Char.isDigit).isEmpty
        · rw [if_pos hd2] at h
          have ht : t = cs.takeWhile Char.isDigit := (Option.some.inj h).symm
          subst ht
          exact ⟨⟨'.' :: r, hsplit.symm⟩,
            cs.takeWhile Char.isDigit, [], by simp, hne, hdig, Or.inl rfl⟩
        · rw [if_neg hd2] at h
          have ht : t = cs.takeWhile Char.isDigit ++ '.' :: r.takeWhile Char.isDigit :=
            (Option.some.inj h).symm
          subst ht
          refine ⟨⟨r.dropWhile Char.isDigit, ?_⟩, cs.takeWhile Char.isDigit,
            '.' :: r.takeWhile Char.isDigit, rfl, hne, hdig,
            Or.inr ⟨r.takeWhile Char.isDigit, rfl, fun hh => hd2 (by simp [hh]),
              fun x hx => List.mem_takeWhile_imp hx⟩⟩
          rw [List.append_assoc, List.cons_append, List.takeWhile_append_dropWhile]
          exact hsplit.symm
      · rw [if_neg hc] at h
        have ht : t = cs.takeWhile Char.isDigit := (Option.some.inj h).symm
        subst ht
        exact ⟨⟨c :: r, hsplit.symm⟩,
          cs.takeWhile Char.isDigit, [], by simp, hne, hdig, Or.inl rfl⟩


theorem consInj {a b : Char} {l1 l2 : List Char} (h : a :: l1 = b :: l2) : a = b ∧ l1 = l2 := by
  injection h with h1 h2
  exact ⟨h1, h2⟩

theorem numTail_max (cs t m2 : List Char) (h : numTail cs = some t) (hm : UNumToken m2)
    (hpre : ∃ r, cs = m2 ++ r) : m2.length ≤ t.length := by
  obtain ⟨d1', t', rfl, hd1ne, hd1dig, htail⟩ := hm
  obtain ⟨r, hcs⟩ := hpre
  rcases htail with rfl | ⟨d2', rfl, hd2ne, hd2dig⟩
  · have hD : cs.takeWhile Char.isDigit = d1' ++ r.takeWhile Char.isDigit := by
      rw [hcs, List.append_nil]
      exact takeWhile_pre _ _ _ hd1dig
    obtain ⟨rest2, ht⟩ := numTail_d1 cs t h
    rw [ht, hD]
    simp
  · have hcs2 : cs = d1' ++ '.' :: (d2' ++ r) := by rw [hcs]; simp
    have hD : cs.takeWhile Char.isDigit = d1' := by
      rw [hcs2, takeWhile_pre _ _ _ hd1dig, List.takeWhile_cons]
      simp
    have hR : cs.dropWhile Char.isDigit = '.' :: (d2' ++ r) := by
      rw [hcs2, dropWhile_pre _ _ _ hd1dig, List.dropWhile_cons]
      simp
    have hd2 : (d2' ++ r).takeWhile Char.isDigit = d2' ++ r.takeWhile Char.isDigit :=
      takeWhile_pre _ _ _ hd2dig
    have hne : ¬ (cs.takeWhile Char.isDigit).isEmpty := by
      rw [hD]
      cases d1' with
      | nil => exact absurd rfl hd1ne
      | cons a b => simp
    have hd2ne' : ¬ ((d2' ++ r).takeWhile Char.isDigit).isEmpty := by
      rw [hd2]
      cases d2' with
      | nil => exact absurd rfl hd2ne
      | cons a b => simp
    unfold numTail at h
    rw [if_neg hne] at h
    simp only [hR] at h
    rw [if_pos trivial, if_neg hd2ne'] at h
    have ht : t = cs.takeWhile Char.isDigit ++ '.' :: (d2' ++ r).takeWhile Char.isDigit :=
      (Option.some.inj h).symm
    rw [ht, hD, hd2]
    simp

theorem numTail_none_max (cs m2 : List Char) (h : numTail cs = none) (hm : UNumToken m2) :
    ¬ ∃ r, cs = m2 ++ r := by
  rintro ⟨r, hcs⟩
  obtain ⟨d1', t', rfl, hd1ne, hd1dig, _⟩ := hm
  have hTW := numTail_eq_none cs h
  cases d1' with
  | nil => exact hd1ne rfl
  | cons a b =>
    have ha : Char.isDigit a = true := hd1dig a (by simp)
    rw [hcs] at hTW
    simp only [List.cons_append, List.append_assoc] at hTW
    rw [List.takeWhile_cons, ha, if_pos rfl] at hTW
    cases hTW

theorem numMatchAt_sound (cs m : List Char) (h : numMatchAt cs = some m) :
    (∃ r, cs = m ++ r) ∧ NumToken m ∧
      ∀ m2, NumToken m2 → (∃ r2, cs = m2 ++ r2) → m2.length ≤ m.length := by
  cases cs with
  | nil => cases h
  | cons c rest =>
    unfold numMatchAt at h
    simp only [] at h
    by_cases hsgn : (c = '+' || c = '-') = true
    · rw [if_pos hsgn] at h
      obtain ⟨t, hT, hmap⟩ := Option.map_eq_some'.mp h
      subst hmap
      obtain ⟨⟨r, hrest⟩, hU⟩ := numTail_sound rest t hT
      obtain ⟨d1, tl, hteq, hd1ne, hd1dig, htail⟩ := hU
      have hsgn' : c = '+' ∨ c = '-' := by simpa using hsgn
      refine ⟨⟨r, by rw [hrest]; rfl⟩, ?_, ?_⟩
      · refine ⟨[c], d1, tl, by rw [hteq]; rfl, ?_, hd1ne, hd1dig, htail⟩
        rcases hsgn' with rfl | rfl
        · exact Or.inr (Or.inl rfl)
        · exact Or.inr (Or.inr rfl)
      · rintro m2 ⟨sgn2, d12, t2, rfl, hs2, hd2ne, hd2dig, ht2⟩ ⟨r2, hcs2⟩
        rcases hs2 with rfl | rfl | rfl
        · cases d12 with
          | nil => exact absurd rfl hd2ne
          | cons x xs =>
            simp only [List.nil_append, List.cons_append, List.append_assoc] at hcs2
            obtain ⟨hx, _⟩ := consInj hcs2
            have hxd : x.isDigit = true := hd2dig x (by simp)
            rw [← hx] at hxd
            rcases hsgn' with rfl | rfl
            · exact absurd hxd (by decide)
            · exact absurd hxd (by decide)
        · simp only [List.nil_append, List.cons_append, List.append_assoc] at hcs2
          obtain ⟨_, hrest2⟩ := consInj hcs2
          have hle := numTail_max rest t (d12 ++ t2) hT
            ⟨d12, t2, rfl, hd2ne, hd2dig, ht2⟩ ⟨r2, by rw [hrest2, List.append_assoc]⟩
          simp only [List.nil_append, List.cons_append, List.length_cons, List.length_append, List.length_nil] at hle ⊢
          omega
        · simp only [List.nil_append, List.cons_append, List.append_assoc] at hcs2
          obtain ⟨_, hrest2⟩ := consInj hcs2
          have hle := numTail_max rest t (d12 ++ t2) hT
            ⟨d12, t2, rfl, hd2ne, hd2dig, ht2⟩ ⟨r2, by rw [hrest2, List.append_assoc]⟩
          simp only [List.nil_append, List.cons_append, List.length_cons, List.length_append, List.length_nil] at hle ⊢
          omega
    · rw [if_neg hsgn] at h
      obtain ⟨hpre, hU⟩ := numTail_sound _ _ h
      obtain ⟨d1, tl, hteq, hd1ne, hd1dig, htail⟩ := hU
      refine ⟨hpre, ⟨[], d1, tl, by rw [hteq]; rfl, Or.inl rfl, hd1ne, hd1dig, htail⟩, ?_⟩
      rintro m2 ⟨sgn2, d12, t2, rfl, hs2, hd2ne, hd2dig, ht2⟩ hpre2
      rcases hs2 with rfl | rfl | rfl
      · exact numTail_max _ _ _ h ⟨d12, t2, rfl, hd2ne, hd2dig, ht2⟩ (by simpa using hpre2)
      · obtain ⟨r2, hcs2⟩ := hpre2
        simp only [List.nil_append, List.cons_append, List.append_assoc] at hcs2
        obtain ⟨hc, _⟩ := consInj hcs2
        exact absurd (by simp [hc] : (c = '+' || c = '-') = true) hsgn
      · obtain ⟨r2, hcs2⟩ := hpre2
        simp only [List.nil_append, List.cons_append, List.append_assoc] at hcs2
        obtain ⟨hc, _⟩ := consInj hcs2
        exact absurd (by simp [hc] : (c = '+' || c = '-') = true) hsgn

theorem numMatchAt_none (cs : List Char) (h : numMatchAt cs = none) :
    ∀ m2, NumToken m2 → ¬ ∃ r2, cs = m2 ++ r2 := by
  rintro m2 ⟨sgn2, d12, t2, rfl, hs2, hd2ne, hd2dig, ht2⟩ ⟨r2, hcs2⟩
  cases cs with
  | nil =>
    have h0 := hcs2.symm
    simp only [List.append_eq_nil] at h0
    exact hd2ne (by tauto)
  | cons c rest =>
    unfold numMatchAt at h
    simp only [] at h
    by_cases hsgn : (c = '+' || c = '-') = true
    · rw [if_pos hsgn] at h
      have hT : numTail rest = none := by
        rcases ht : numTail rest with _ | t
        · rfl
        · rw [ht] at h; cases h
      have hsgn' : c = '+' ∨ c = '-' := by simpa using hsgn
      rcases hs2 with rfl | rfl | rfl
      · cases d12 with
        | nil => exact hd2ne rfl
        | cons x xs =>
          simp only [List.nil_append, List.cons_append, List.append_assoc] at hcs2
          obtain ⟨hx, _⟩ := consInj hcs2
          have hxd : x.isDigit = true := hd2dig x (by simp)
          rw [← hx] at hxd
          rcases hsgn' with rfl | rfl
          · exact absurd hxd (by decide)
          · exact absurd hxd (by decide)
      · simp only [List.nil_append, List.cons_append, List.append_assoc] at hcs2
        obtain ⟨_, hrest2⟩ := consInj hcs2
        exact numTail_none_max rest (d12 ++ t2) hT ⟨d12, t2, rfl, hd2ne, hd2dig, ht2⟩
          ⟨r2, by rw [hrest2, List.append_assoc]⟩
      · simp only [List.nil_append, List.cons_append, List.append_assoc] at hcs2
        obtain ⟨_, hrest2⟩ := consInj hcs2
        exact numTail_none_max rest (d12 ++ t2) hT ⟨d12, t2, rfl, hd2ne, hd2dig, ht2⟩
          ⟨r2, by rw [hrest2, List.append_assoc]⟩
    · rw [if_neg hsgn] at h
      rcases hs2 with rfl | rfl | rfl
      · exact numTail_none_max _ _ h ⟨d12, t2, rfl, hd2ne, hd2dig, ht2⟩
          ⟨r2, by simpa using hcs2⟩
      · simp only [List.nil_append, List.cons_append, List.append_assoc] at hcs2
        obtain ⟨hc, _⟩ := consInj hcs2
        exact absurd (by simp [hc] : (c = '+' || c = '-') = true) hsgn
      · simp only [List.nil_append, List.cons_append, List.append_assoc] at hcs2
        obtain ⟨hc, _⟩ := consInj hcs2
        exact absurd (by simp [hc] : (c = '+' || c = '-') = true) hsgn

theorem firstNumMatch_spec (s m : List Char) (h : firstNumMatch s = some m) :
    FirstNumTokenSpec s m := by
  induction s with
  | nil => cases h
  | cons c cs ih =>
    rcases hA : numMatchAt (c :: cs) with _ | m0
    · rw [firstNumMatch, hA] at h
      obtain ⟨i, ⟨pre, post, hsplit, hlen, htok⟩, hmin, hmax⟩ := ih h
      refine ⟨i + 1, ⟨c :: pre, post, by rw [hsplit]; rfl, by simp [hlen], htok⟩, ?_, ?_⟩
      · intro j m2 hTj
        obtain ⟨pre2, post2, hsplit2, hlen2, htok2⟩ := hTj
        cases pre2 with
        | nil =>
          exfalso
          exact numMatchAt_none _ hA m2 htok2 ⟨post2, by simpa using hsplit2⟩
        | cons p0 pre2' =>
          obtain ⟨-, hcs⟩ := consInj (by simpa using hsplit2 :
            c :: cs = p0 :: (pre2' ++ m2 ++ post2))
          have hge := hmin pre2'.length m2 ⟨pre2', post2, hcs, rfl, htok2⟩
          have hj : pre2'.length + 1 = j := by simpa using hlen2
          omega
      · intro m2 hT
        obtain ⟨pre2, post2, hsplit2, hlen2, htok2⟩ := hT
        cases pre2 with
        | nil => simp at hlen2
        | cons p0 pre2' =>
          obtain ⟨-, hcs⟩ := consInj (by simpa using hsplit2 :
            c :: cs = p0 :: (pre2' ++ m2 ++ post2))
          have hl : pre2'.length = i := by simpa using hlen2
          exact hmax m2 ⟨pre2', post2, hcs, hl, htok2⟩
    · rw [firstNumMatch, hA] at h
      have hm : m0 = m := Option.some.inj h
      subst hm
      obtain ⟨⟨r, hpre⟩, htok, hmaxTok⟩ := numMatchAt_sound _ _ hA
      refine ⟨0, ⟨[], r, by simpa using hpre, rfl, htok⟩, fun j m2 _ => Nat.zero_le j, ?_⟩
      intro m2 hT
      obtain ⟨pre2, post2, hsplit2, hlen2, htok2⟩ := hT
      have hpre2 : pre2 = [] := List.length_eq_zero.mp hlen2
      subst hpre2
      exact hmaxTok m2 htok2 ⟨post2, by simpa using hsplit2⟩

theorem mem_truncate1 {c : Char} {m : List Char} (h : c ∈ truncate1 m) : c ∈ m := by
  unfold truncate1 at h
  by_cases hd : '.' ∈ m
  · rw [if_pos hd] at h
    rcases List.mem_append.mp h with h1 | h2
    · exact (List.takeWhile_sublist _).subset h1
    · rcases List.mem_cons.mp h2 with rfl | h3
      · exact hd
      · exact (List.dropWhile_sublist _).subset
          ((List.drop_sublist _ _).subset ((List.take_sublist _ _).subset h3))
  · rwa [if_neg hd] at h

/-- C3: `parse_numeric_cell` normalizes (strip, space removal,
full-width signs, `O`/`o`→`0`, `I`/`l`/`|`→`1`) and then, whenever the
normalized text contains a match, returns the leftmost longest
substring matching optional sign + digits + optional dot-digits, with
only the first decimal digit kept (truncation, not rounding); a `+` in
the result always comes from the normalized input (never injected);
and `"+1.25"` ↦ `"+1.2"`, `"O3"` ↦ `"03"`, `"12"` ↦ `"12"`. -/
theorem c3_numeric_regex :
    (∀ raw img m, firstNumMatch (normalize_numeric raw) = some m →
      parse_numeric_cell raw img = String.mk (truncate1 m) ∧
        FirstNumTokenSpec (normalize_numeric raw) m) ∧
    (∀ raw img m, firstNumMatch (normalize_numeric raw) = some m →
      parse_numeric_cell raw img = String.mk (truncate1 m) →
      '+' ∈ truncate1 m → '+' ∈ normalize_numeric raw) ∧
    (parse_numeric_cell "+1.25" none = "+1.2" ∧
     parse_numeric_cell "O3" none = "03" ∧
     parse_numeric_cell "12" none = "12") := by
  refine ⟨?_, ?_, by decide, by decide, by decide⟩
  · intro raw img m h
    constructor
    · unfold parse_numeric_cell
      rw [h]
    · exact firstNumMatch_spec _ _ h
  · intro raw img m h _ hplus
    obtain ⟨i, ⟨pre, post, hsplit, _, _⟩, _, _⟩ := firstNumMatch_spec _ _ h
    rw [hsplit]
    simp only [List.mem_append]
    exact Or.inl (Or.inr (mem_truncate1 hplus))

/-- Witness for C3 at a concrete input with leading garbage, a sign and
two decimal digits. -/
theorem c3_numeric_regex_witness :
    parse_numeric_cell "x+12.75y" none = "+12.7" ∧
    FirstNumTokenSpec (normalize_numeric "x+12.75y")
      ('+' :: '1' :: '2' :: '.' :: '7' :: '5' :: []) := by
  have h := c3_numeric_regex.1 "x+12.75y" none
    ('+' :: '1' :: '2' :: '.' :: '7' :: '5' :: []) (by decide)
  exact ⟨h.1.trans (by decide), h.2⟩
